import Mathlib

/-!
Verification development for the time-varying low-pass filtering pipeline
(`scripts/lowpass_sweep.py`).

The Python source is shallowly embedded: audio buffers become Lean lists,
NumPy slice assignment becomes an explicit `setSlice`, and the two SciPy
calls are modelled as follows.

* `scipy.signal.butter(4, norm_cutoff, btype="low")` succeeds exactly when
  its normalized critical frequency satisfies `0 < norm_cutoff < 1` and
  raises `ValueError` otherwise; the source calls it outside any
  `try`/`except`, so a design failure propagates.  We model the designed
  filter only through its normalized cutoff.
* `scipy.signal.filtfilt(b, a, segment)` is abstracted by a parameter
  `flt : ℚ → List α → Option (List α)` applied to the normalized cutoff and
  the segment; `none` models `filtfilt` raising `ValueError`, which the
  source catches and answers with the raw-copy fallback.

Machine floats are modelled by exact rationals.
-/

attribute [local semireducible] Rat.mul Rat.add Rat.sub Rat.inv Rat.ofScientific

deriving instance DecidableEq for Except

/-- Python's builtin `round` on a nonnegative-denominator rational:
round half to even (banker's rounding), as used by
`int(round(duration * args.fps))` in `main`. -/
def pyRound (q : ℚ) : ℤ :=
  let f : ℤ := q.floor
  let r : ℚ := q - (f : ℚ)
  if r < 1 / 2 then f
  else if 1 / 2 < r then f + 1
  else if 2 ∣ f then f else f + 1

/-- `np.linspace(s, e, n)` over exact rationals: `n` evenly spaced points
from `s` to `e` inclusive; a single point equals `s` (the division by
`n - 1 = 0` yields `0` in ℚ, matching NumPy's `num == 1` special case). -/
def linspace (s e : ℚ) (n : ℕ) : List ℚ :=
  (List.range n).map (fun i : ℕ => s + (i : ℚ) * ((e - s) / ((n : ℚ) - 1)))

/-- `max(1, int(round(duration * fps)))` from `main` (line 119). -/
def n_frames (d fps : ℚ) : ℕ :=
  (max 1 (pyRound (d * fps))).toNat

/-- The cutoff trajectory built in `main` (lines 118-120):
`np.linspace(start_cutoff, end_cutoff, n_frames)`. -/
def cutoff_trajectory (d fps s e : ℚ) : List ℚ :=
  linspace s e (n_frames d fps)

/-- Python's `round(x, 2)`: round half to even at two decimal places. -/
def round2 (q : ℚ) : ℚ :=
  (pyRound (q * 100) : ℚ) / 100

/-- NumPy slice assignment `buf[start:start+len(data)] = data` as a pure
operation producing the updated list. -/
def setSlice {α : Type} (buf : List α) (start : ℕ) (data : List α) : List α :=
  buf.take start ++ data ++ buf.drop (start + data.length)

/-- The segment `audio[s:e]` (`e` already clipped by the caller). -/
def segmentOf {α : Type} (audio : List α) (s e : ℕ) : List α :=
  (audio.drop s).take (e - s)

/-- The body of the per-frame loop of `apply_time_varying_lowpass`
(lines 57-74) for frame index `i` with target cutoff `c`, acting on the
accumulated output buffer `acc`.  `Except.error ()` models an uncaught
`ValueError` from `scipy.signal.butter` (the design call sits outside the
`try` block); the `flt ... = none` branch is the caught `ValueError` from
`scipy.signal.filtfilt`, answered by the raw-copy fallback. -/
def processFrame {α : Type} (flt : ℚ → List α → Option (List α))
    (audio : List α) (sr : ℕ) (i : ℕ) (c : ℚ) (acc : List α) :
    Except Unit (List α) :=
  let fl := sr / 75
  let s := i * fl
  let e := min ((i + 1) * fl) audio.length
  if e ≤ s then .ok acc
  else
    let seg := segmentOf audio s e
    if seg.length < 16 then .ok (setSlice acc s seg)
    else
      let nyq : ℚ := (sr : ℚ) / 2
      let norm : ℚ := min (c / nyq) (99 / 100)
      if 0 < norm ∧ norm < 1 then
        match flt norm seg with
        | some out => .ok (setSlice acc s out)
        | none => .ok (setSlice acc s seg)
      else .error ()

/-- The per-frame loop `for i in range(n_frames)` of
`apply_time_varying_lowpass`, consuming the cutoff sequence in order. -/
def goFrames {α : Type} (flt : ℚ → List α → Option (List α))
    (audio : List α) (sr : ℕ) : ℕ → List ℚ → List α → Except Unit (List α)
  | _, [], acc => .ok acc
  | i, c :: rest, acc =>
    match processFrame flt audio sr i c acc with
    | .ok acc2 => goFrames flt audio sr (i + 1) rest acc2
    | .error e => .error e

/-- `apply_time_varying_lowpass(audio, sr, cutoff_seq)` (lines 52-75).
`zlike` is the per-sample action of `np.zeros_like` (for mono rational
samples it is `fun _ => 0`; for a multi-channel row it zeroes the row
preserving its shape).  The frame length is `int(sr / 75)` — the source
hardcodes 75 here (line 56) and takes no frame-rate argument. -/
def apply_time_varying_lowpass {α : Type} (flt : ℚ → List α → Option (List α))
    (zlike : α → α) (audio : List α) (sr : ℕ) (cutoff_seq : List ℚ) :
    Except Unit (List α) :=
  goFrames flt audio sr 0 cutoff_seq (audio.map zlike)

/-- The frame span `[i*frame_len, min((i+1)*frame_len, L))` generated by
lines 58-59 of `apply_time_varying_lowpass`, as a membership predicate. -/
def inSpan (fl L i j : ℕ) : Prop :=
  i * fl ≤ j ∧ j < min ((i + 1) * fl) L

instance (fl L i j : ℕ) : Decidable (inSpan fl L i j) := by
  unfold inSpan
  infer_instance

/-- `s.split('-')[0]` from `write_csv` (line 79): the part of the CSV stem
before the first dash (the whole stem when no dash occurs).  File names are
modelled as lists of characters. -/
def splitDashHead (s : List Char) : List Char :=
  s.takeWhile (fun c => c ≠ '-')

/-- `s[:-2]` from `write_csv` (line 80): drop the last two characters. -/
def dropLast2 (s : List Char) : List Char :=
  s.take (s.length - 2)

/-- The class name computed by `write_csv` (lines 79-80) from the CSV
path's stem. -/
def csv_class_name (stem : List Char) : List Char :=
  dropLast2 (splitDashHead stem)

/-- `class_list.index(class_name) if class_name in class_list else -1`
from `write_csv` (line 87): index of the first occurrence, `-1` when the
name is absent. -/
def pyIndex (cl : List (List Char)) (name : List Char) : ℤ :=
  match cl with
  | [] => -1
  | c :: rest =>
    if c = name then 0
    else
      let r := pyIndex rest name
      if r < 0 then -1 else r + 1

/-- The data rows written by the `for value in cutoff_seq` loop of
`write_csv` (lines 91-92), after the header: one `(class_index,
round(value, 2))` row appended per trajectory element. -/
def write_csv_rows (ci : ℤ) (cutoff_seq : List ℚ) : List (ℤ × ℚ) :=
  cutoff_seq.foldl (fun acc v => acc ++ [(ci, round2 v)]) []

/-- One discovered input audio file, as the batch driver sees it:
immediate parent directory name, stem, extension (with the dot), decoded
samples (mono) and sample rate from `soundfile.read`. -/
structure AudioFile where
  parent : List Char
  stem : List Char
  ext : List Char
  data : List ℚ
  sr : ℕ
deriving DecidableEq

/-- The configuration read from `parameters.json`: the ordered class list
(`parameter_1.classes`) and the cutoff pair (`parameter_2`). -/
structure Config where
  classes : List (List Char)
  start_cutoff : ℚ
  end_cutoff : ℚ
deriving DecidableEq

/-- The environment of one run of `main`: the configuration (`none` models
a missing or malformed `parameters.json`, whose uncaught exception aborts
the process), the discovered input files (empty both for an empty tree and
for a missing input directory — `Path.rglob` yields nothing for a
non-existent root), the existing-output predicate backing
`out_audio.exists()`, the `--overwrite` flag and the `--fps` value. -/
structure Env where
  config : Option Config
  files : List AudioFile
  existsOut : List Char → Bool
  overwrite : Bool
  fps : ℕ

/-- `f"{class_name}_{audio_path.stem}{audio_path.suffix}"` (line 110). -/
def out_audio_name (f : AudioFile) : List Char :=
  f.parent ++ '_' :: (f.stem ++ f.ext)

/-- The stem of `out_audio.with_suffix(".csv")`: the base name with the
audio extension replaced, so its stem is `parent_stem`. -/
def out_csv_stem (f : AudioFile) : List Char :=
  f.parent ++ '_' :: f.stem

/-- The CSV output file name (line 112). -/
def out_csv_name (f : AudioFile) : List Char :=
  out_csv_stem f ++ ".csv".toList

/-- What the driver did for one input file: skipped it (existing output,
overwrite disabled) or wrote the filtered audio and the CSV rows. -/
inductive FileOutcome where
  | skipped : FileOutcome
  | processed (audioName : List Char) (audioData : List ℚ) (sr : ℕ)
      (csvName : List Char) (rows : List (ℤ × ℚ)) : FileOutcome
deriving DecidableEq

/-- The per-file body of `main`'s loop (lines 108-125): skip when the
output audio exists and `--overwrite` is absent, otherwise derive the
frame count from the duration, build the trajectory, filter, and write
audio plus CSV.  `Except.error ()` models an uncaught exception (from
filter design) aborting the process. -/
def process_file (flt : ℚ → List ℚ → Option (List ℚ)) (cfg : Config)
    (fps : ℕ) (overwrite : Bool) (existsOut : List Char → Bool)
    (f : AudioFile) : Except Unit FileOutcome :=
  let outA := out_audio_name f
  if !overwrite && existsOut outA then .ok .skipped
  else
    let duration : ℚ := (f.data.length : ℚ) / (f.sr : ℚ)
    let cs := cutoff_trajectory duration (fps : ℚ) cfg.start_cutoff cfg.end_cutoff
    match apply_time_varying_lowpass flt (fun _ => (0 : ℚ)) f.data f.sr cs with
    | .error e => .error e
    | .ok filtered =>
      let ci := pyIndex cfg.classes (csv_class_name (out_csv_stem f))
      .ok (.processed outA filtered f.sr (out_csv_name f) (write_csv_rows ci cs))

/-- The driver's file loop, in discovery order. -/
def runFiles (flt : ℚ → List ℚ → Option (List ℚ)) (cfg : Config)
    (fps : ℕ) (overwrite : Bool) (existsOut : List Char → Bool) :
    List AudioFile → Except Unit (List FileOutcome)
  | [] => .ok []
  | f :: rest =>
    match process_file flt cfg fps overwrite existsOut f with
    | .error e => .error e
    | .ok o =>
      match runFiles flt cfg fps overwrite existsOut rest with
      | .error e => .error e
      | .ok os => .ok (o :: os)

/-- `main` (lines 94-125): load the configuration (its failure aborts
before any file is processed), then process the discovered files in
order.  `Except.error ()` is a non-zero process exit; `Except.ok` is a
normal exit with the recorded per-file outcomes. -/
def mainDriver (flt : ℚ → List ℚ → Option (List ℚ)) (env : Env) :
    Except Unit (List FileOutcome) :=
  match env.config with
  | none => .error ()
  | some cfg => runFiles flt cfg env.fps env.overwrite env.existsOut env.files

/- ### General lemmas about `setSlice` and `segmentOf` -/

theorem setSlice_length_eq {α : Type} (l d : List α) (s : ℕ)
    (h : s + d.length ≤ l.length) : (setSlice l s d).length = l.length := by
  simp only [setSlice, List.length_append, List.length_take, List.length_drop]
  omega

theorem setSlice_length_ge {α : Type} (l d : List α) (s : ℕ) :
    l.length ≤ (setSlice l s d).length := by
  simp only [setSlice, List.length_append, List.length_take, List.length_drop]
  omega

theorem getElem?_setSlice_lt {α : Type} (l d : List α) (s j : ℕ)
    (hj : j < s) (hjl : j < l.length) : (setSlice l s d)[j]? = l[j]? := by
  rw [setSlice, List.append_assoc, List.getElem?_append, List.length_take,
    if_pos (by omega), List.getElem?_take, if_pos hj]

theorem getElem?_setSlice_mid {α : Type} (l d : List α) (s j : ℕ)
    (hs : s ≤ l.length) (h1 : s ≤ j) (h2 : j < s + d.length) :
    (setSlice l s d)[j]? = d[j - s]? := by
  rw [setSlice, List.append_assoc, List.getElem?_append, List.length_take,
    if_neg (by omega), List.getElem?_append, Nat.min_eq_left hs,
    if_pos (by omega)]

theorem segmentOf_congr {α : Type} (a b : List α) (s e : ℕ)
    (h : ∀ j, s ≤ j → j < e → a[j]? = b[j]?) :
    segmentOf a s e = segmentOf b s e := by
  apply List.ext_getElem?
  intro n
  unfold segmentOf
  rw [List.getElem?_take, List.getElem?_take]
  by_cases hn : n < e - s
  · rw [if_pos hn, if_pos hn, List.getElem?_drop, List.getElem?_drop]
    exact h (s + n) (by omega) (by omega)
  · rw [if_neg hn, if_neg hn]

theorem take_append_drop_length {α : Type} (t : List α) (k : ℕ) :
    t.take k ++ t.drop ((t.take k).length) = t := by
  rw [List.length_take]
  rcases le_total k t.length with h | h
  · rw [Nat.min_eq_left h, List.take_append_drop]
  · rw [Nat.min_eq_right h, List.take_of_length_le h, List.drop_length,
      List.append_nil]

theorem setSlice_segment_self {α : Type} (l : List α) (s k : ℕ) :
    setSlice l s ((l.drop s).take k) = l := by
  unfold setSlice
  rw [List.append_assoc, ← List.drop_drop, take_append_drop_length,
    List.take_append_drop]

theorem map_setSlice {α β : Type} (m : α → β) (l d : List α) (s : ℕ) :
    (setSlice l s d).map m = setSlice (l.map m) s (d.map m) := by
  simp [setSlice, List.map_take, List.map_drop]

theorem map_segmentOf {α β : Type} (m : α → β) (l : List α) (s e : ℕ) :
    (segmentOf l s e).map m = segmentOf (l.map m) s e := by
  simp [segmentOf, List.map_take, List.map_drop]

/- ### Shape preservation through the filter loop -/

theorem processFrame_map_inv {α β : Type} (flt : ℚ → List α → Option (List α))
    (m : α → β) (audio : List α) (sr i : ℕ) (c : ℚ) (acc acc2 : List α)
    (hf : ∀ cn s o, flt cn s = some o → o.map m = s.map m)
    (hacc : acc.map m = audio.map m)
    (hp : processFrame flt audio sr i c acc = .ok acc2) :
    acc2.map m = audio.map m := by
  simp only [processFrame] at hp
  split at hp
  · cases hp
    exact hacc
  · split at hp
    · cases hp
      rw [map_setSlice, map_segmentOf, hacc, segmentOf,
        setSlice_segment_self]
    · split at hp
      · rcases hflt : flt (min (c / ((sr : ℚ) / 2)) (99 / 100))
            (segmentOf audio (i * (sr / 75))
              (min ((i + 1) * (sr / 75)) audio.length)) with _ | o
        · rw [hflt] at hp
          cases hp
          rw [map_setSlice, map_segmentOf, hacc, segmentOf,
            setSlice_segment_self]
        · rw [hflt] at hp
          cases hp
          rw [map_setSlice, hf _ _ _ hflt, map_segmentOf, hacc, segmentOf,
            setSlice_segment_self]
      · cases hp

theorem goFrames_map_eq {α β : Type} (flt : ℚ → List α → Option (List α))
    (m : α → β) (audio : List α) (sr : ℕ)
    (hf : ∀ cn s o, flt cn s = some o → o.map m = s.map m) :
    ∀ (cs : List ℚ) (i : ℕ) (acc out : List α),
      acc.map m = audio.map m →
      goFrames flt audio sr i cs acc = .ok out →
      out.map m = audio.map m := by
  intro cs
  induction cs with
  | nil =>
    intro i acc out hacc h
    simp only [goFrames] at h
    cases h
    exact hacc
  | cons c rest ih =>
    intro i acc out hacc h
    simp only [goFrames] at h
    rcases hp : processFrame flt audio sr i c acc with e | acc2 <;> rw [hp] at h
    · cases h
    · exact ih (i + 1) acc2 out
        (processFrame_map_inv flt m audio sr i c acc acc2 hf hacc hp) h

theorem segmentOf_length {α : Type} (audio : List α) (s e : ℕ) :
    (segmentOf audio s e).length = min (e - s) (audio.length - s) := by
  simp [segmentOf]

theorem processFrame_inv_low {α : Type} (flt : ℚ → List α → Option (List α))
    (audio : List α) (sr i : ℕ) (c : ℚ) (acc acc2 : List α)
    (hlen : audio.length ≤ acc.length)
    (hp : processFrame flt audio sr i c acc = .ok acc2) :
    audio.length ≤ acc2.length ∧
      ∀ j, j < i * (sr / 75) → j < audio.length → acc2[j]? = acc[j]? := by
  simp only [processFrame] at hp
  split at hp
  · cases hp
    exact ⟨hlen, fun j _ _ => rfl⟩
  · next hlt =>
    have hs : i * (sr / 75) < audio.length := by
      rcases Nat.lt_min.mp (Nat.lt_of_not_le hlt) with ⟨_, h2⟩
      exact h2
    split at hp
    · cases hp
      exact ⟨le_trans hlen (setSlice_length_ge _ _ _), fun j hj hja =>
        getElem?_setSlice_lt _ _ _ _ hj (lt_of_lt_of_le hja hlen)⟩
    · split at hp
      · rcases hflt : flt (min (c / ((sr : ℚ) / 2)) (99 / 100))
            (segmentOf audio (i * (sr / 75))
              (min ((i + 1) * (sr / 75)) audio.length)) with _ | o <;>
          rw [hflt] at hp <;> cases hp
        · exact ⟨le_trans hlen (setSlice_length_ge _ _ _), fun j hj hja =>
            getElem?_setSlice_lt _ _ _ _ hj (lt_of_lt_of_le hja hlen)⟩
        · exact ⟨le_trans hlen (setSlice_length_ge _ _ _), fun j hj hja =>
            getElem?_setSlice_lt _ _ _ _ hj (lt_of_lt_of_le hja hlen)⟩
      · cases hp

theorem goFrames_low {α : Type} (flt : ℚ → List α → Option (List α))
    (audio : List α) (sr : ℕ) :
    ∀ (cs : List ℚ) (i : ℕ) (acc out : List α),
      audio.length ≤ acc.length →
      goFrames flt audio sr i cs acc = .ok out →
      audio.length ≤ out.length ∧
        ∀ j, j < i * (sr / 75) → j < audio.length → out[j]? = acc[j]? := by
  intro cs
  induction cs with
  | nil =>
    intro i acc out hlen h
    simp only [goFrames] at h
    cases h
    exact ⟨hlen, fun j _ _ => rfl⟩
  | cons c rest ih =>
    intro i acc out hlen h
    simp only [goFrames] at h
    rcases hp : processFrame flt audio sr i c acc with e | acc2 <;> rw [hp] at h
    · cases h
    · obtain ⟨hl2, hlow2⟩ := processFrame_inv_low flt audio sr i c acc acc2 hlen hp
      obtain ⟨hl3, hlow3⟩ := ih (i + 1) acc2 out hl2 h
      refine ⟨hl3, fun j hj hja => ?_⟩
      have hj2 : j < (i + 1) * (sr / 75) :=
        lt_of_lt_of_le hj (Nat.mul_le_mul_right (sr / 75) (Nat.le_succ i))
      rw [hlow3 j hj2 hja, hlow2 j hj hja]

theorem goFrames_short_raw {α : Type} (flt : ℚ → List α → Option (List α))
    (audio : List α) (sr : ℕ) :
    ∀ (cs : List ℚ) (i : ℕ) (acc out : List α),
      audio.length ≤ acc.length →
      goFrames flt audio sr i cs acc = .ok out →
      ∀ a, i ≤ a → a - i < cs.length →
      min ((a + 1) * (sr / 75)) audio.length - a * (sr / 75) < 16 →
      ∀ j, a * (sr / 75) ≤ j → j < min ((a + 1) * (sr / 75)) audio.length →
      out[j]? = audio[j]? := by
  intro cs
  induction cs with
  | nil =>
    intro i acc out _ _ a _ hlt
    simp only [List.length_nil] at hlt
    omega
  | cons c rest ih =>
    intro i acc out hlen h a hia halt hshort j hj hje
    simp only [goFrames] at h
    rcases hp : processFrame flt audio sr i c acc with e | acc2 <;> rw [hp] at h
    · cases h
    · rcases Nat.eq_or_lt_of_le hia with heq | hlt2
      · subst heq
        have hjL : j < audio.length := lt_of_lt_of_le hje (Nat.min_le_right _ _)
        have hjfl : j < (i + 1) * (sr / 75) :=
          lt_of_lt_of_le hje (Nat.min_le_left _ _)
        have hseglen : (segmentOf audio (i * (sr / 75))
            (min ((i + 1) * (sr / 75)) audio.length)).length =
            min ((i + 1) * (sr / 75)) audio.length - i * (sr / 75) := by
          rw [segmentOf_length]
          omega
        obtain ⟨hl2, hlow2⟩ := processFrame_inv_low flt audio sr i c acc acc2 hlen hp
        obtain ⟨_, hlow3⟩ := goFrames_low flt audio sr rest (i + 1) acc2 out hl2 h
        rw [hlow3 j hjfl hjL]
        simp only [processFrame] at hp
        split at hp
        · omega
        · split at hp
          · cases hp
            rw [getElem?_setSlice_mid _ _ _ _ (by omega) hj (by omega),
              segmentOf, List.getElem?_take, if_pos (by omega),
              List.getElem?_drop]
            congr 1
            omega
          · next hnshort =>
            rw [hseglen] at hnshort
            omega
      · have hacc2 : audio.length ≤ acc2.length :=
          (processFrame_inv_low flt audio sr i c acc acc2 hlen hp).1
        exact ih (i + 1) acc2 out hacc2 h a hlt2 (by
          simp only [List.length_cons] at halt
          omega) hshort j hj hje

/- ### Trajectory generator lemmas -/

theorem linspace_length (s e : ℚ) (n : ℕ) : (linspace s e n).length = n := by
  rw [linspace, List.length_map, List.length_range]

theorem linspace_head (s e : ℚ) (n : ℕ) (h : 0 < n) :
    (linspace s e n).head? = some s := by
  rcases n with _ | m
  · omega
  · rw [linspace, List.range_succ_eq_map]
    simp

theorem linspace_one (s e : ℚ) : linspace s e 1 = [s] := by
  simp [linspace, List.range_succ]

theorem linspace_getLast (s e : ℚ) (n : ℕ) (h : 1 < n) :
    (linspace s e n).getLast? = some e := by
  have hx : ((n : ℚ) - 1) ≠ 0 := by
    have h2 : (2 : ℚ) ≤ (n : ℚ) := by exact_mod_cast h
    intro hc
    nlinarith
  rw [List.getLast?_eq_getElem?, linspace_length, linspace, List.getElem?_map,
    List.getElem?_range (by omega)]
  simp only [Option.map]
  congr 1
  have hcast : ((n - 1 : ℕ) : ℚ) = (n : ℚ) - 1 := by
    have : 1 ≤ n := by omega
    push_cast [this]
    ring
  rw [hcast, mul_comm, div_mul_cancel₀ _ hx]
  ring

/- ### CSV rows -/

theorem foldl_append_eq_map {β γ : Type} (g : β → γ) :
    ∀ (l : List β) (init : List γ),
      l.foldl (fun acc v => acc ++ [g v]) init = init ++ l.map g := by
  intro l
  induction l with
  | nil => intro init; simp
  | cons x xs ih => intro init; simp [ih]

theorem write_csv_rows_eq_map (ci : ℤ) (cs : List ℚ) :
    write_csv_rows ci cs = cs.map (fun v => (ci, round2 v)) := by
  rw [write_csv_rows, foldl_append_eq_map, List.nil_append]

/- ### Class-name resolution lemmas -/

theorem splitDashHead_append (parent stem : List Char) (h : '-' ∉ parent) :
    splitDashHead (parent ++ '_' :: stem) = parent ++ '_' :: splitDashHead stem := by
  induction parent with
  | nil =>
    rw [List.nil_append, List.nil_append, splitDashHead, List.takeWhile_cons,
      if_pos (by decide)]
    rfl
  | cons hd tl ih =>
    have hhd : hd ≠ '-' := fun hc => h (by rw [hc]; exact List.mem_cons_self _ _)
    have htl : '-' ∉ tl := fun hc => h (List.mem_cons_of_mem hd hc)
    rw [List.cons_append, splitDashHead, List.takeWhile_cons,
      if_pos (by simp [hhd]), List.cons_append]
    congr 1
    exact ih htl

theorem pyIndex_not_mem (name : List Char) :
    ∀ cl : List (List Char), name ∉ cl → pyIndex cl name = -1 := by
  intro cl
  induction cl with
  | nil => intro _; rfl
  | cons c rest ih =>
    intro h
    have hc : c ≠ name := fun hc => h (by rw [hc]; exact List.mem_cons_self _ _)
    have hrest : name ∉ rest := fun hc => h (List.mem_cons_of_mem c hc)
    rw [pyIndex, if_neg hc]
    simp only [ih hrest]
    norm_num

theorem pyIndex_mem (name : List Char) :
    ∀ cl : List (List Char), name ∈ cl →
      ∃ k : ℕ, pyIndex cl name = (k : ℤ) ∧ cl[k]? = some name := by
  intro cl
  induction cl with
  | nil => intro h; cases h
  | cons c rest ih =>
    intro h
    by_cases hc : c = name
    · exact ⟨0, by rw [pyIndex, if_pos hc]; norm_num, by simp [hc]⟩
    · have hrest : name ∈ rest := by
        rcases List.mem_cons.mp h with h1 | h1
        · exact absurd h1.symm hc
        · exact h1
      obtain ⟨k, hk1, hk2⟩ := ih hrest
      refine ⟨k + 1, ?_, ?_⟩
      · rw [pyIndex, if_neg hc]
        simp only [hk1]
        rw [if_neg (by omega)]
        push_cast
        ring
      · simpa using hk2

/- ### Error-handling lemmas for the filter engine -/

theorem processFrame_ok_of_pos {α : Type} (flt : ℚ → List α → Option (List α))
    (audio : List α) (sr i : ℕ) (c : ℚ) (acc : List α)
    (hsr : 0 < sr) (hc : 0 < c) :
    ∃ acc2, processFrame flt audio sr i c acc = .ok acc2 := by
  have hnyq : (0 : ℚ) < (sr : ℚ) / 2 := by positivity
  have hnorm : 0 < min (c / ((sr : ℚ) / 2)) (99 / 100) ∧
      min (c / ((sr : ℚ) / 2)) (99 / 100) < 1 := by
    constructor
    · apply lt_min
      · positivity
      · norm_num
    · exact lt_of_le_of_lt (min_le_right _ _) (by norm_num)
  simp only [processFrame]
  split
  · exact ⟨acc, rfl⟩
  · split
    · exact ⟨_, rfl⟩
    · rcases hflt : flt (min (c / ((sr : ℚ) / 2)) (99 / 100))
          (segmentOf audio (i * (sr / 75))
            (min ((i + 1) * (sr / 75)) audio.length)) with _ | o
      · exact ⟨_, rfl⟩
      · exact ⟨_, rfl⟩

theorem goFrames_ok_of_pos {α : Type} (flt : ℚ → List α → Option (List α))
    (audio : List α) (sr : ℕ) (hsr : 0 < sr) :
    ∀ (cs : List ℚ) (i : ℕ) (acc : List α), (∀ c ∈ cs, 0 < c) →
      ∃ out, goFrames flt audio sr i cs acc = .ok out := by
  intro cs
  induction cs with
  | nil => intro i acc _; exact ⟨acc, rfl⟩
  | cons c rest ih =>
    intro i acc hpos
    obtain ⟨acc2, hp⟩ := processFrame_ok_of_pos flt audio sr i c acc hsr
      (hpos c (List.mem_cons_self _ _))
    obtain ⟨out, hout⟩ := ih (i + 1) acc2
      (fun x hx => hpos x (List.mem_cons_of_mem c hx))
    exact ⟨out, by rw [goFrames, hp]; exact hout⟩

theorem processFrame_none_eq_id {α : Type} (audio : List α) (sr i : ℕ)
    (c : ℚ) (acc : List α) :
    processFrame (fun _ _ => none) audio sr i c acc =
      processFrame (fun _ s => some s) audio sr i c acc := rfl

theorem goFrames_none_eq_id {α : Type} (audio : List α) (sr : ℕ) :
    ∀ (cs : List ℚ) (i : ℕ) (acc : List α),
      goFrames (fun _ _ => none) audio sr i cs acc =
        goFrames (fun _ s => some s) audio sr i cs acc := by
  intro cs
  induction cs with
  | nil => intro i acc; rfl
  | cons c rest ih =>
    intro i acc
    rw [goFrames, goFrames, processFrame_none_eq_id]
    rcases processFrame (fun _ s => some s) audio sr i c acc with e | acc2
    · rfl
    · exact ih (i + 1) acc2

/- ### Degenerate frame length (sr / 75 = 0) -/

theorem goFrames_fl_zero {α : Type} (flt : ℚ → List α → Option (List α))
    (audio : List α) (sr : ℕ) (h : sr / 75 = 0) :
    ∀ (cs : List ℚ) (i : ℕ) (acc : List α),
      goFrames flt audio sr i cs acc = .ok acc := by
  intro cs
  induction cs with
  | nil => intro i acc; rfl
  | cons c rest ih =>
    intro i acc
    rw [goFrames]
    have hp : processFrame flt audio sr i c acc = .ok acc := by
      simp [processFrame, h]
    rw [hp]
    exact ih (i + 1) acc

/- ### Batch-driver lemmas -/

theorem runFiles_skip (flt : ℚ → List ℚ → Option (List ℚ)) (cfg : Config)
    (fps : ℕ) (ex : List Char → Bool) :
    ∀ (files : List AudioFile) (os : List FileOutcome) (i : ℕ) (f : AudioFile),
      runFiles flt cfg fps false ex files = .ok os →
      files[i]? = some f →
      ex (out_audio_name f) = true →
      os[i]? = some .skipped := by
  intro files
  induction files with
  | nil =>
    intro os i f _ hf
    simp at hf
  | cons g rest ih =>
    intro os i f h hf hex
    rw [runFiles] at h
    rcases hp : process_file flt cfg fps false ex g with e | o <;> rw [hp] at h
    · cases h
    · rcases hr : runFiles flt cfg fps false ex rest with e | os' <;> rw [hr] at h
      · cases h
      · cases h
        rcases i with _ | j
        · simp only [List.getElem?_cons_zero, Option.some.injEq] at hf
          subst hf
          rw [process_file, if_pos (by simp [hex])] at hp
          cases hp
          simp
        · simp only [List.getElem?_cons_succ] at hf ⊢
          exact ih os' j f hr hf hex

/- ### Claims -/

/-- C1, counterexample: with the real default parameters (sr = 16000,
2 s of audio, 75 fps) the source's frame spans do NOT tile
`[0, L)`: `frame_len = int(16000 / 75) = 213`, `n = 150` frames cover only
`[0, 31950)`, so sample index 31950 of a 32000-sample buffer lies in no
span — the final frame is clipped but never absorbs the remainder. -/
theorem c1_spans_counterexample :
    (16000 : ℕ) / 75 = 213 ∧ n_frames 2 75 = 150 ∧ 31950 < 32000 ∧
      ∀ i < n_frames 2 75, ¬ inSpan (16000 / 75) 32000 i 31950 := by
  decide

/-- C1, amended: the frame spans `[i*frame_len, min((i+1)*frame_len, L))`
for `i < n` are pairwise disjoint and their union is exactly
`[0, min(n*frame_len, L))` — the final frame is clipped when
`n*frame_len` overshoots `L`, but when it undershoots the tail
`[n*frame_len, L)` is covered by no span (it stays at the zero
initialization of the output buffer). -/
theorem c1_spans_amended (fl L n : ℕ) :
    (∀ i k j, i < k → inSpan fl L i j → inSpan fl L k j → False) ∧
    (∀ j, (∃ i, i < n ∧ inSpan fl L i j) ↔ j < min (n * fl) L) := by
  constructor
  · rintro i k j hik ⟨_, hi2⟩ ⟨hk1, _⟩
    have h1 : (i + 1) * fl ≤ k * fl := Nat.mul_le_mul_right fl (by omega)
    have h2 : j < (i + 1) * fl := lt_of_lt_of_le hi2 (Nat.min_le_left _ _)
    omega
  · intro j
    constructor
    · rintro ⟨i, hin, _, hi2⟩
      have h2 : j < (i + 1) * fl := lt_of_lt_of_le hi2 (Nat.min_le_left _ _)
      have h3 : (i + 1) * fl ≤ n * fl := Nat.mul_le_mul_right fl (by omega)
      have h4 : j < L := lt_of_lt_of_le hi2 (Nat.min_le_right _ _)
      exact Nat.lt_min.mpr ⟨by omega, h4⟩
    · intro hj
      have hjn : j < n * fl := lt_of_lt_of_le hj (Nat.min_le_left _ _)
      have hjL : j < L := lt_of_lt_of_le hj (Nat.min_le_right _ _)
      have hfl : 0 < fl := by
        rcases Nat.eq_zero_or_pos fl with h0 | h0
        · rw [h0, Nat.mul_zero] at hjn
          omega
        · exact h0
      refine ⟨j / fl, Nat.div_lt_of_lt_mul (by rw [mul_comm] at hjn; exact hjn),
        Nat.div_mul_le_self j fl, ?_⟩
      apply Nat.lt_min.mpr
      refine ⟨?_, hjL⟩
      have hdm := Nat.div_add_mod j fl
      have hm := Nat.mod_lt j hfl
      have hsm : (j / fl + 1) * fl = fl * (j / fl) + fl := by ring
      omega

/-- C1, witness for the amended theorem at `fl = 3`, `L = 10`, `n = 4`:
sample 5 is covered by some span below index 4. -/
theorem c1_spans_witness : ∃ i, i < 4 ∧ inSpan 3 10 i 5 :=
  ((c1_spans_amended 3 10 4).2 5).mpr (by decide)

/-- C2, counterexample: the frame length is `int(sr / 75)` regardless of
the supplied `--fps`.  With `sr = 1200` and `fps = 2400` the claim demands
`frame_len = floor(1200/2400) = 0` and rejection of the input; instead the
driver processes the file with frame length `1200 / 75 = 16` and succeeds
(the 16-sample file is covered by one 16-sample frame, filtered with the
identity stand-in for `filtfilt`, and 32 rows are written). -/
theorem c2_frame_len_counterexample :
    (1200 : ℕ) / 2400 = 0 ∧
    mainDriver (fun _ s => some s)
      ⟨some ⟨["tom".toList], 600, 600⟩,
        [⟨"tom".toList, "x".toList, ".wav".toList, List.replicate 16 1, 1200⟩],
        fun _ => false, false, 2400⟩ =
      .ok [FileOutcome.processed ("tom_x.wav".toList) (List.replicate 16 1)
        1200 ("tom_x.csv".toList) (List.replicate 32 (0, 600))] := by
  decide

/-- C2, amended: the engine's frame length is `int(sr / 75)`, independent
of the supplied frame rate; a frame length of zero is not rejected — every
span is empty, so the engine returns the zero-initialized buffer — and
every non-final frame lying inside the buffer has length exactly
`sr / 75`. -/
theorem c2_frame_len_amended {α : Type} (flt : ℚ → List α → Option (List α))
    (zlike : α → α) (audio : List α) (sr : ℕ) (cs : List ℚ) (L i : ℕ) :
    (sr / 75 = 0 →
      apply_time_varying_lowpass flt zlike audio sr cs = .ok (audio.map zlike)) ∧
    ((i + 1) * (sr / 75) ≤ L →
      min ((i + 1) * (sr / 75)) L - i * (sr / 75) = sr / 75) := by
  constructor
  · intro h
    rw [apply_time_varying_lowpass]
    exact goFrames_fl_zero flt audio sr h cs 0 (audio.map zlike)
  · intro h
    rw [Nat.min_eq_left h, Nat.succ_mul]
    omega

/-- C2, witness: at `sr = 50` the frame length is zero and a 1-sample
buffer passes through unrejected as all zeros; the non-final-frame length
identity holds at `sr = 150`, `L = 10`, `i = 0`. -/
theorem c2_frame_len_witness :
    apply_time_varying_lowpass (fun _ _ => none) (fun _ => (0 : ℚ))
      [5] 50 [1000] = .ok [0] ∧
    min ((0 + 1) * (150 / 75)) 10 - 0 * (150 / 75) = 150 / 75 :=
  ⟨(c2_frame_len_amended (fun _ _ => none) (fun _ => (0 : ℚ)) [5] 50 [1000]
      10 0).1 (by decide),
    (c2_frame_len_amended (fun _ _ => none) (fun _ => (0 : ℚ)) [5] 150 [1000]
      10 0).2 (by decide)⟩

/-- C3: for positive duration and frame rate the trajectory has length
exactly `max(1, round(d * fps))`; with more than one element it starts at
`start_cutoff` and ends (exactly, in rational arithmetic) at `end_cutoff`,
and with a single element it is `[start_cutoff]`. -/
theorem c3_trajectory (d f s e : ℚ) (hd : 0 < d) (hf : 0 < f) :
    (cutoff_trajectory d f s e).length = n_frames d f ∧
    (1 < n_frames d f →
      (cutoff_trajectory d f s e).head? = some s ∧
      (cutoff_trajectory d f s e).getLast? = some e) ∧
    (n_frames d f = 1 → cutoff_trajectory d f s e = [s]) := by
  refine ⟨linspace_length s e (n_frames d f), fun h1 => ?_, fun h1 => ?_⟩
  · exact ⟨linspace_head s e (n_frames d f) (by omega),
      linspace_getLast s e (n_frames d f) h1⟩
  · rw [cutoff_trajectory, h1, linspace_one]

/-- C3, witness: a 2-second file at 75 fps yields 150 frames, sweeping
4000 Hz down to 500 Hz. -/
theorem c3_trajectory_witness :
    (cutoff_trajectory 2 75 4000 500).length = n_frames 2 75 ∧
    (1 < n_frames 2 75 →
      (cutoff_trajectory 2 75 4000 500).head? = some 4000 ∧
      (cutoff_trajectory 2 75 4000 500).getLast? = some 500) ∧
    (n_frames 2 75 = 1 → cutoff_trajectory 2 75 4000 500 = [4000]) :=
  c3_trajectory 2 75 4000 500 (by norm_num) (by norm_num)

/-- C4, counterexample: a failure in filter DESIGN is not caught.  With a
non-positive cutoff (here 0) on a 16-sample frame, `scipy.signal.butter`
raises `ValueError` outside the `try` block and the whole call errors out
instead of copying the raw segment — even with an always-succeeding
`filtfilt`. -/
theorem c4_design_error_counterexample :
    apply_time_varying_lowpass (fun _ s => some s) (fun _ => (0 : ℚ))
      (List.replicate 16 1) 1200 [0] = .error () := by
  decide

/-- C4, amended: failures of filter APPLICATION are recovered by the
raw-copy fallback and never propagate — a run in which every `filtfilt`
call fails is indistinguishable from one in which every call returns its
input — and with a positive sample rate and positive cutoffs (as produced
by a valid configuration) the engine never errors; only a design failure
(non-positive cutoff) can propagate. -/
theorem c4_fallback_amended {α : Type} (flt : ℚ → List α → Option (List α))
    (zlike : α → α) (audio : List α) (sr : ℕ) (cs : List ℚ)
    (hsr : 0 < sr) (hcs : ∀ c ∈ cs, 0 < c) :
    (∃ out, apply_time_varying_lowpass flt zlike audio sr cs = .ok out) ∧
    apply_time_varying_lowpass (fun _ _ => none) zlike audio sr cs =
      apply_time_varying_lowpass (fun _ s => some s) zlike audio sr cs := by
  constructor
  · exact goFrames_ok_of_pos flt audio sr hsr cs 0 (audio.map zlike) hcs
  · rw [apply_time_varying_lowpass, apply_time_varying_lowpass]
    exact goFrames_none_eq_id audio sr cs 0 (audio.map zlike)

/-- C4, witness: a 16-sample frame at `sr = 1200` with cutoff 600 Hz. -/
theorem c4_fallback_witness :
    (∃ out, apply_time_varying_lowpass (fun _ s => some s) (fun _ => (0 : ℚ))
        (List.replicate 16 1) 1200 [600] = .ok out) ∧
    apply_time_varying_lowpass (fun _ _ => none) (fun _ => (0 : ℚ))
        (List.replicate 16 1) 1200 [600] =
      apply_time_varying_lowpass (fun _ s => some s) (fun _ => (0 : ℚ))
        (List.replicate 16 1) 1200 [600] :=
  c4_fallback_amended (fun _ s => some s) (fun _ => (0 : ℚ))
    (List.replicate 16 1) 1200 [600] (by decide) (by decide)

/-- C5, counterexample: the class name looked up is NOT the parent
directory name.  For a file `clip.wav` in directory `tom`, `write_csv`
derives `"tom_cl"` from the CSV stem `"tom_clip"` (split at the first dash,
drop two characters), which is absent from the class list
`["tom", "jerry"]`, so every row carries −1 even though `"tom"` sits at
position 0. -/
theorem c5_class_index_counterexample :
    pyIndex ["tom".toList, "jerry".toList]
      (csv_class_name (out_csv_stem
        ⟨"tom".toList, "clip".toList, ".wav".toList, [], 16000⟩)) = -1 ∧
    pyIndex ["tom".toList, "jerry".toList] ("tom".toList) = 0 := by
  decide

/-- C5, amended: the class index is the position of the MANGLED name —
the CSV stem `parent_stem` cut at the first dash and shortened by two
characters — in the configured list; this equals the parent directory name
exactly when the stem's part before the first dash is a single character;
names absent from the list yield −1 (never a failure), and present names
yield their first position. -/
theorem c5_class_index_amended (parent stem name : List Char)
    (cl : List (List Char)) :
    ( '-' ∉ parent → (splitDashHead stem).length = 1 →
      csv_class_name (parent ++ '_' :: stem) = parent) ∧
    (name ∉ cl → pyIndex cl name = -1) ∧
    (name ∈ cl → ∃ k : ℕ, pyIndex cl name = (k : ℤ) ∧ cl[k]? = some name) := by
  refine ⟨fun hp h1 => ?_, pyIndex_not_mem name cl, pyIndex_mem name cl⟩
  rw [csv_class_name, splitDashHead_append parent stem hp, dropLast2]
  have hlen : (parent ++ '_' :: splitDashHead stem).length = parent.length + 2 := by
    simp [h1]
  rw [hlen]
  have h2 : parent.length + 2 - 2 = parent.length := by omega
  rw [h2]
  exact List.take_left parent ('_' :: splitDashHead stem)

/-- C5, witness: a single-character stem recovers the parent name; a name
absent from the list yields −1 and a present name its position. -/
theorem c5_class_index_witness :
    csv_class_name ("tom".toList ++ '_' :: "x".toList) = "tom".toList ∧
    pyIndex ["tom".toList, "jerry".toList] ("cat".toList) = -1 ∧
    ∃ k : ℕ, pyIndex ["tom".toList, "jerry".toList] ("jerry".toList) = (k : ℤ) ∧
      (["tom".toList, "jerry".toList] : List (List Char))[k]? =
        some ("jerry".toList) :=
  ⟨(c5_class_index_amended ("tom".toList) ("x".toList) ("cat".toList)
      ["tom".toList, "jerry".toList]).1 (by decide) (by decide),
    (c5_class_index_amended ("tom".toList) ("x".toList) ("cat".toList)
      ["tom".toList, "jerry".toList]).2.1 (by decide),
    (c5_class_index_amended ("tom".toList) ("x".toList) ("jerry".toList)
      ["tom".toList, "jerry".toList]).2.2 (by decide)⟩

/-- C6: the annotation writer emits exactly one data row per trajectory
element, in order, each row being `(class_index, round(value, 2))`; the
row count equals the trajectory length whatever the filter engine did
(the rows are a function of the trajectory alone). -/
theorem c6_rows_per_element (ci : ℤ) (cs : List ℚ) :
    (write_csv_rows ci cs).length = cs.length ∧
    ∀ i : ℕ, (write_csv_rows ci cs)[i]? =
      (cs[i]?).map (fun v => (ci, round2 v)) := by
  rw [write_csv_rows_eq_map]
  exact ⟨by simp, fun i => by simp⟩

/-- C7: a frame whose (clipped) segment has fewer than 16 samples is
copied unchanged into the output buffer — the slice of the result over the
frame's span equals the input slice, for EVERY abstract filter `flt`
(filter design and application are skipped entirely). -/
theorem c7_short_segment_copied {α : Type} (flt : ℚ → List α → Option (List α))
    (zlike : α → α) (audio : List α) (sr : ℕ) (cs : List ℚ) (out : List α)
    (k : ℕ)
    (h : apply_time_varying_lowpass flt zlike audio sr cs = .ok out)
    (hk : k < cs.length)
    (hshort : min ((k + 1) * (sr / 75)) audio.length - k * (sr / 75) < 16) :
    segmentOf out (k * (sr / 75)) (min ((k + 1) * (sr / 75)) audio.length) =
      segmentOf audio (k * (sr / 75)) (min ((k + 1) * (sr / 75)) audio.length) := by
  apply segmentOf_congr
  intro j hj hje
  have hlen : audio.length ≤ (audio.map zlike).length := by
    rw [List.length_map]
  exact goFrames_short_raw flt audio sr cs 0 (audio.map zlike) out hlen h k
    (Nat.zero_le k) (by omega) hshort j hj hje

/-- C7, witness: a 3-sample buffer at `sr = 225` has a single 3-sample
frame, returned unchanged even by an always-failing filter. -/
theorem c7_short_segment_witness :
    segmentOf ([1, 2, 3] : List ℚ) (0 * (225 / 75))
        (min ((0 + 1) * (225 / 75)) ([1, 2, 3] : List ℚ).length) =
      segmentOf ([1, 2, 3] : List ℚ) (0 * (225 / 75))
        (min ((0 + 1) * (225 / 75)) ([1, 2, 3] : List ℚ).length) :=
  c7_short_segment_copied (fun _ _ => none) (fun _ => (0 : ℚ)) [1, 2, 3] 225
    [100] [1, 2, 3] 0 (by decide) (by decide) (by decide)

/-- C8: the filter pipeline allocates a fresh output buffer whose shape
agrees with the input under any per-sample measure `m` respected by the
zero fill and by successful filter applications; in particular (for
`m := List.length` on multichannel rows) the channel count of every sample
row is preserved, and the output length always equals the input length.
The input buffer itself is never modified (the embedding is pure). -/
theorem c8_shape_preserved {α β : Type} (flt : ℚ → List α → Option (List α))
    (zlike : α → α) (m : α → β) (audio : List α) (sr : ℕ) (cs : List ℚ)
    (out : List α)
    (hz : ∀ x, m (zlike x) = m x)
    (hf : ∀ cn s o, flt cn s = some o → o.map m = s.map m)
    (h : apply_time_varying_lowpass flt zlike audio sr cs = .ok out) :
    out.map m = audio.map m ∧ out.length = audio.length := by
  have h0 : (audio.map zlike).map m = audio.map m := by
    rw [List.map_map]
    exact List.map_congr_left (fun a _ => hz a)
  have hmap := goFrames_map_eq flt m audio sr hf cs 0 (audio.map zlike) out h0 h
  refine ⟨hmap, ?_⟩
  have h2 := congrArg List.length hmap
  simpa using h2

/-- C8, witness: a 3-sample run with the identity filter stand-in. -/
theorem c8_shape_witness :
    ([1, 2, 3] : List ℚ).map (fun _ => ()) =
      ([1, 2, 3] : List ℚ).map (fun _ => ()) ∧
    ([1, 2, 3] : List ℚ).length = ([1, 2, 3] : List ℚ).length :=
  c8_shape_preserved (fun _ s => some s) (fun _ => (0 : ℚ)) (fun _ => ())
    [1, 2, 3] 225 [100] [1, 2, 3] (fun _ => rfl)
    (fun cn s o hh => by cases hh; rfl) (by decide)

/-- C9, counterexample: an empty discovered input-file set (which is also
what a missing input directory produces, since `Path.rglob` yields nothing
there) does NOT abort the run: with a valid configuration the driver
exits normally having processed nothing, where the claim demands a
non-zero exit. -/
theorem c9_startup_counterexample :
    mainDriver (fun _ s => some s)
      ⟨some ⟨[], 4000, 500⟩, [], fun _ => false, false, 75⟩ = .ok [] := by
  decide

/-- C9, amended: only a missing or malformed configuration resource aborts
the run (with a non-zero exit, before any file is processed); a missing
input directory or an empty input-file set produces a normal exit with no
files processed. -/
theorem c9_startup_amended (flt : ℚ → List ℚ → Option (List ℚ)) (env : Env)
    (cfg : Config) :
    (env.config = none → mainDriver flt env = .error ()) ∧
    (env.config = some cfg → env.files = [] → mainDriver flt env = .ok []) := by
  constructor
  · intro h
    rw [mainDriver, h]
  · intro h hf
    rw [mainDriver, h, hf]
    rfl

/-- C9, witness: a missing configuration errors out; a valid configuration
with no discovered files exits normally. -/
theorem c9_startup_witness :
    mainDriver (fun _ s => some s)
      ⟨none, [], fun _ => false, false, 75⟩ = .error () ∧
    mainDriver (fun _ s => some s)
      ⟨some ⟨[], 4000, 500⟩, [], fun _ => true, true, 75⟩ = .ok [] :=
  ⟨(c9_startup_amended (fun _ s => some s)
      ⟨none, [], fun _ => false, false, 75⟩ ⟨[], 4000, 500⟩).1 rfl,
    (c9_startup_amended (fun _ s => some s)
      ⟨some ⟨[], 4000, 500⟩, [], fun _ => true, true, 75⟩ ⟨[], 4000, 500⟩).2
      rfl rfl⟩

/-- C10: with overwrite disabled, the skip decision consults only the
existence of the output AUDIO file: whenever that file exists, the file's
outcome is `skipped` — no audio and no CSV are written — for every
existing-output predicate, in particular one where the CSV is absent
(a missing CSV beside an existing audio output is never regenerated). -/
theorem c10_skip_solely_audio (flt : ℚ → List ℚ → Option (List ℚ))
    (env : Env) (outs : List FileOutcome) (i : ℕ) (f : AudioFile)
    (hov : env.overwrite = false)
    (hf : env.files[i]? = some f)
    (hex : env.existsOut (out_audio_name f) = true)
    (h : mainDriver flt env = .ok outs) :
    outs[i]? = some .skipped := by
  rw [mainDriver] at h
  rcases hc : env.config with _ | cfg <;> rw [hc] at h
  · cases h
  · rw [hov] at h
    exact runFiles_skip flt cfg env.fps env.existsOut env.files outs i f h hf hex

/-- C10, witness: a file whose audio output exists (but whose CSV does
not) is skipped entirely. -/
theorem c10_skip_witness :
    ([FileOutcome.skipped] : List FileOutcome)[0]? = some FileOutcome.skipped :=
  c10_skip_solely_audio (fun _ s => some s)
    ⟨some ⟨[], 1, 1⟩, [⟨"tom".toList, "x".toList, ".wav".toList, [1], 16000⟩],
      fun n => n == ("tom_x.wav".toList), false, 75⟩
    [FileOutcome.skipped] 0 ⟨"tom".toList, "x".toList, ".wav".toList, [1], 16000⟩
    rfl (by decide) (by decide) (by decide)
